import Mathlib

/-
Verification development for the Pico track-monitoring firmware
(src/pico_firmware/main.c). The interrupt-driven sensor-fusion core is
shallowly embedded: machine integers are modelled as Nat/Int with explicit
reduction modulo 2^32 / 2^64 at every operation where the C code performs
fixed-width arithmetic, and the two execution contexts (edge/index interrupt
handler vs. main sampling loop) are modelled by explicit interleaving of
atomic interrupt invocations between the individual field copies of the
main-loop snapshot.
-/

/-- Reduce a mathematical integer to the int32_t value range, two's
complement style: the result lies in [-2^31, 2^31). This models C (gcc/arm)
32-bit signed wraparound arithmetic. -/
def wrap32 (x : Int) : Int := (x + 2 ^ 31) % 2 ^ 32 - 2 ^ 31

/-- Reduce a natural number modulo 2^32, modelling uint32_t arithmetic. -/
def wrapU32 (n : Nat) : Nat := n % 2 ^ 32

/-- C subtraction of two uint64_t values a - b (modular): both arguments are
assumed < 2^64. -/
def subU64 (a b : Nat) : Nat := (a + 2 ^ 64 - b) % 2 ^ 64

/-- C conversion of an int32_t value to uint64_t (usual arithmetic
conversion at the division in update_encoder_velocity, main.c:289): a
negative value gains 2^64. -/
def toUInt64ofInt32 (x : Int) : Nat := (x % (2 ^ 64 : Int)).toNat

/-- C conversion of a uint64_t value to int32_t (the assignment to
encoder_state.velocity, main.c:289): reduction into the int32_t range,
as gcc/arm implements it. -/
def toInt32ofUInt64 (n : Nat) : Int := wrap32 (Int.ofNat n)

/-- Constant ENCODER_TRIGGER_INTERVAL, main.c:57: trigger camera every 100 pulses. -/
def ENCODER_TRIGGER_INTERVAL : Nat := 100

/-- Model of encoder_state_t, main.c:72-78. position and velocity are int32_t
(modelled as Int kept in the int32 range by wrap32), pulse_count is
uint32_t, last_pulse_time is uint64_t, index_detected is bool. -/
structure encoder_state_t where
  position : Int
  velocity : Int
  pulse_count : Nat
  last_pulse_time : Nat
  index_detected : Bool
deriving DecidableEq

/-- The two function-local static variables of update_encoder_velocity
(main.c:280, main.c:284): last_velocity_update (uint64_t) and
last_position (int32_t). They persist across invocations, so they are
part of the firmware state. -/
structure velocity_statics_t where
  last_velocity_update : Nat
  last_position : Int
deriving DecidableEq

/-- The global mutable state touched by the interrupt handlers:
encoder_state (main.c:81), the statics of update_encoder_velocity, and
camera_trigger_count (main.c:87, uint32_t). -/
structure FirmwareState where
  encoder : encoder_state_t
  statics : velocity_statics_t
  camera_trigger_count : Nat
deriving DecidableEq

/-- Model of update_encoder_velocity, main.c:279-295. current_time is the value
returned by get_timestamp_us at main.c:281. The outer guard is
current_time - last_velocity_update >= 10000 (uint64_t arithmetic); inside,
position_diff = encoder_state.position - last_position (int32_t
arithmetic), time_diff = current_time - last_velocity_update (uint64_t),
and if time_diff > 0 the velocity is (position_diff * 1000000) / time_diff:
the int32_t product (wrapping, gcc/arm) is converted to uint64_t by the
usual arithmetic conversions, divided as uint64_t, and the quotient is
converted back to int32_t by the assignment. Finally both statics are
overwritten. -/
def update_encoder_velocity (st : FirmwareState) (current_time : Nat) : FirmwareState :=
  if 10000 ≤ subU64 current_time st.statics.last_velocity_update then
    let position_diff : Int := wrap32 (st.encoder.position - st.statics.last_position)
    let time_diff : Nat := subU64 current_time st.statics.last_velocity_update
    let enc :=
      if 0 < time_diff then
        { st.encoder with
            velocity := toInt32ofUInt64 (toUInt64ofInt32 (wrap32 (position_diff * 1000000)) / time_diff) }
      else st.encoder
    { st with
        encoder := enc,
        statics := { last_velocity_update := current_time, last_position := st.encoder.position } }
  else st

/-- The ENCODER_A_PIN branch of encoder_irq_handler, main.c:244-267.
a_state and b_state are the GPIO levels read at main.c:248-249,
current_time the timestamp read at main.c:245, and t_vel the timestamp
that update_encoder_velocity reads for itself at main.c:281. Position is
incremented when the levels match, else decremented (int32_t wraparound);
pulse_count (uint32_t) is incremented and last_pulse_time set
unconditionally; if the post-increment pulse_count is a multiple of
ENCODER_TRIGGER_INTERVAL the camera is triggered and camera_trigger_count
(uint32_t) is incremented; finally update_encoder_velocity runs. -/
def encoder_irq_handler_A (st : FirmwareState) (a_state b_state : Bool)
    (current_time t_vel : Nat) : FirmwareState :=
  let enc0 := st.encoder
  let enc1 :=
    if a_state = b_state then { enc0 with position := wrap32 (enc0.position + 1) }
    else { enc0 with position := wrap32 (enc0.position - 1) }
  let enc2 := { enc1 with pulse_count := wrapU32 (enc1.pulse_count + 1), last_pulse_time := current_time }
  let st2 := { st with encoder := enc2 }
  let st3 :=
    if enc2.pulse_count % ENCODER_TRIGGER_INTERVAL = 0 then
      { st2 with camera_trigger_count := wrapU32 (st2.camera_trigger_count + 1) }
    else st2
  update_encoder_velocity st3 t_vel

/-- The ENCODER_INDEX_PIN branch of encoder_irq_handler, main.c:269-273:
set index_detected; the position reset is commented out in the source. -/
def encoder_irq_handler_index (st : FirmwareState) : FirmwareState :=
  { st with encoder := { st.encoder with index_detected := true } }

/-- One interrupt invocation: either an edge on phase A (with the sampled
phase levels and the two timestamps read during the invocation) or an edge
on the index channel. -/
inductive IrqEvent where
  | edgeA (a_state b_state : Bool) (current_time t_vel : Nat)
  | index
deriving DecidableEq

/-- Dispatch of encoder_irq_handler, main.c:243-274, on the interrupting
GPIO. -/
def encoder_irq_handler (st : FirmwareState) (e : IrqEvent) : FirmwareState :=
  match e with
  | .edgeA a b t tv => encoder_irq_handler_A st a b t tv
  | .index => encoder_irq_handler_index st

/-- Run a sequence of interrupt invocations. -/
def run_irq (st : FirmwareState) : List IrqEvent → FirmwareState
  | [] => st
  | e :: es => run_irq (encoder_irq_handler st e) es

/-- Model of encoder_init, main.c:184-197, together with the zero initialization of
the statics and of camera_trigger_count: every counter is zero,
last_pulse_time is the boot-time timestamp t0. -/
def encoder_init (t0 : Nat) : FirmwareState :=
  { encoder :=
      { position := 0, velocity := 0, pulse_count := 0, last_pulse_time := t0,
        index_detected := false },
    statics := { last_velocity_update := 0, last_position := 0 },
    camera_trigger_count := 0 }

/-- The motion-state fields of sensor_data_t, main.c:62-70, that the
sampling loop copies out of the shared state at main.c:422-425 (the float
IMU fields and system_status are filled in later from the I2C bus and are
not part of the shared motion state). -/
structure sensor_data_t where
  timestamp_us : Nat
  encoder_position : Int
  encoder_velocity : Int
  camera_trigger_count : Nat
deriving DecidableEq

/-- The snapshot step of data_acquisition_loop, main.c:422-425, under
interleaved interrupt invocations. The GPIO interrupt preempts the main
loop at any point (encoder_irq_handler never acquires data_mutex, so the
lock held by the loop does not exclude it): e1 are the invocations
delivered after current_time was read but before the position copy
(main.c:423), e2 those between the position copy and the velocity copy
(main.c:424), e3 those between the velocity copy and the
camera_trigger_count copy (main.c:425). Each copied field reflects the
shared state at the moment its own copy instruction runs. -/
def snapshot_interleaved (st : FirmwareState) (current_time : Nat)
    (e1 e2 e3 : List IrqEvent) : sensor_data_t :=
  let s1 := run_irq st e1
  let s2 := run_irq s1 e2
  let s3 := run_irq s2 e3
  { timestamp_us := current_time,
    encoder_position := s1.encoder.position,
    encoder_velocity := s2.encoder.velocity,
    camera_trigger_count := s3.camera_trigger_count }

/-- A sample is consistent with a firmware state when its three copied
motion fields all equal the corresponding fields of that one state. -/
def consistent_with (d : sensor_data_t) (st : FirmwareState) : Prop :=
  d.encoder_position = st.encoder.position ∧
  d.encoder_velocity = st.encoder.velocity ∧
  d.camera_trigger_count = st.camera_trigger_count

/-- The primitive actions of one sample emission in data_acquisition_loop,
main.c:419-434, in source order: mutex_enter_blocking(&data_mutex) at
main.c:420, the field copies at main.c:422-426, imu_read_data (blocking
I2C bus read) at main.c:428, send_data_uart (serial write) at main.c:430,
mutex_exit(&data_mutex) at main.c:432. -/
inductive LoopAction where
  | lock_acquire
  | copy_fields
  | imu_read
  | uart_send
  | lock_release
deriving DecidableEq

/-- The body of one sample emission, in the exact order of
main.c:420-432. -/
def loop_body : List LoopAction :=
  [LoopAction.lock_acquire, LoopAction.copy_fields, LoopAction.imu_read,
   LoopAction.uart_send, LoopAction.lock_release]

/-- Whether data_mutex is held while action a executes, derived by folding
over the body: lock_acquire raises the flag for the following actions,
lock_release lowers it. -/
def held_during (body : List LoopAction) (a : LoopAction) : Bool :=
  (body.foldl
    (fun (p : Bool × Bool) x =>
      let found := p.2 || (decide (x = a) && p.1)
      let held :=
        match x with
        | LoopAction.lock_acquire => true
        | LoopAction.lock_release => false
        | _ => p.1
      (held, found))
    (false, false)).2

/-- The timestamps passed to update_encoder_velocity by the phase-A edge
invocations of an interrupt sequence, in order. -/
def edge_velocity_times : List IrqEvent → List Nat
  | [] => []
  | IrqEvent.edgeA _ _ _ tv :: es => tv :: edge_velocity_times es
  | IrqEvent.index :: es => edge_velocity_times es

/-- Number of interrupt invocations in a run in which the velocity
estimator actually performs a new estimate, i.e. in which the outer 10 ms
guard of update_encoder_velocity (main.c:283) is true. The guard depends
only on the statics, which the earlier part of the edge handler does not
touch, so it is evaluated on the state at the start of the invocation. -/
def count_velocity_updates (st : FirmwareState) : List IrqEvent → Nat
  | [] => 0
  | IrqEvent.edgeA a b t tv :: es =>
      (if 10000 ≤ subU64 tv st.statics.last_velocity_update then 1 else 0) +
        count_velocity_updates (encoder_irq_handler st (IrqEvent.edgeA a b t tv)) es
  | IrqEvent.index :: es =>
      count_velocity_updates (encoder_irq_handler st IrqEvent.index) es

/-- Number of phase-A edge invocations in a sequence. -/
def countA (es : List IrqEvent) : Nat :=
  es.countP fun e => match e with | IrqEvent.edgeA _ _ _ _ => true | IrqEvent.index => false

theorem subU64_of_le {a b : Nat} (h1 : b ≤ a) (h2 : a < 2 ^ 64) : subU64 a b = a - b := by
  unfold subU64
  have h3 : a + 2 ^ 64 - b = (a - b) + 2 ^ 64 := by omega
  rw [h3, Nat.add_mod_right, Nat.mod_eq_of_lt (by omega)]

theorem uev_camera (st : FirmwareState) (c : Nat) :
    (update_encoder_velocity st c).camera_trigger_count = st.camera_trigger_count := by
  unfold update_encoder_velocity
  split <;> rfl

theorem uev_position (st : FirmwareState) (c : Nat) :
    (update_encoder_velocity st c).encoder.position = st.encoder.position := by
  unfold update_encoder_velocity
  split
  · dsimp only
    split <;> rfl
  · rfl

theorem uev_pulse (st : FirmwareState) (c : Nat) :
    (update_encoder_velocity st c).encoder.pulse_count = st.encoder.pulse_count := by
  unfold update_encoder_velocity
  split
  · dsimp only
    split <;> rfl
  · rfl

theorem uev_lpt (st : FirmwareState) (c : Nat) :
    (update_encoder_velocity st c).encoder.last_pulse_time = st.encoder.last_pulse_time := by
  unfold update_encoder_velocity
  split
  · dsimp only
    split <;> rfl
  · rfl

theorem uev_index (st : FirmwareState) (c : Nat) :
    (update_encoder_velocity st c).encoder.index_detected = st.encoder.index_detected := by
  unfold update_encoder_velocity
  split
  · dsimp only
    split <;> rfl
  · rfl

theorem uev_lvu (st : FirmwareState) (c : Nat) :
    (update_encoder_velocity st c).statics.last_velocity_update =
      if 10000 ≤ subU64 c st.statics.last_velocity_update then c
      else st.statics.last_velocity_update := by
  unfold update_encoder_velocity
  split <;> rfl

theorem edgeA_pulse (st : FirmwareState) (a b : Bool) (t tv : Nat) :
    (encoder_irq_handler_A st a b t tv).encoder.pulse_count =
      wrapU32 (st.encoder.pulse_count + 1) := by
  unfold encoder_irq_handler_A
  dsimp only
  rw [uev_pulse]
  split <;> split <;> rfl

theorem edgeA_position (st : FirmwareState) (a b : Bool) (t tv : Nat) :
    (encoder_irq_handler_A st a b t tv).encoder.position =
      (if a = b then wrap32 (st.encoder.position + 1) else wrap32 (st.encoder.position - 1)) := by
  unfold encoder_irq_handler_A
  dsimp only
  rw [uev_position]
  split <;> split <;> rfl

theorem edgeA_lpt (st : FirmwareState) (a b : Bool) (t tv : Nat) :
    (encoder_irq_handler_A st a b t tv).encoder.last_pulse_time = t := by
  unfold encoder_irq_handler_A
  dsimp only
  rw [uev_lpt]
  split <;> split <;> rfl

theorem edgeA_camera (st : FirmwareState) (a b : Bool) (t tv : Nat) :
    (encoder_irq_handler_A st a b t tv).camera_trigger_count =
      (if wrapU32 (st.encoder.pulse_count + 1) % ENCODER_TRIGGER_INTERVAL = 0
       then wrapU32 (st.camera_trigger_count + 1) else st.camera_trigger_count) := by
  unfold encoder_irq_handler_A
  dsimp only
  rw [uev_camera]
  split <;> split <;> rfl

theorem edgeA_lvu (st : FirmwareState) (a b : Bool) (t tv : Nat) :
    (encoder_irq_handler_A st a b t tv).statics.last_velocity_update =
      (if 10000 ≤ subU64 tv st.statics.last_velocity_update then tv
       else st.statics.last_velocity_update) := by
  unfold encoder_irq_handler_A
  dsimp only
  rw [uev_lvu]
  split <;> split <;> rfl

/-- Claim C4: for every state and every phase-A edge (rising or falling), the
edge-interrupt invocation changes position by exactly one count (int32_t
wraparound arithmetic): incremented when the sampled phase-A and phase-B
levels match, decremented when they differ; and pulse_count is incremented
and last_pulse_time is set to the invocation timestamp unconditionally.
Quantifying over the pre-state covers every position in every sequence of
phase-A edges. -/
theorem quadrature_step_spec (st : FirmwareState) (a b : Bool) (t tv : Nat) :
    (encoder_irq_handler_A st a b t tv).encoder.position =
      (if a = b then wrap32 (st.encoder.position + 1) else wrap32 (st.encoder.position - 1)) ∧
    (encoder_irq_handler_A st a b t tv).encoder.pulse_count =
      wrapU32 (st.encoder.pulse_count + 1) ∧
    (encoder_irq_handler_A st a b t tv).encoder.last_pulse_time = t :=
  ⟨edgeA_position st a b t tv, edgeA_pulse st a b t tv, edgeA_lpt st a b t tv⟩

/-- Claim C8: for every state, an edge on the index channel sets index_detected
and leaves position, pulse_count, velocity and last_pulse_time (and the
camera trigger count) unchanged; in particular position is never reset to
zero on an index pulse. -/
theorem index_pulse_frame (st : FirmwareState) :
    (encoder_irq_handler st IrqEvent.index).encoder.index_detected = true ∧
    (encoder_irq_handler st IrqEvent.index).encoder.position = st.encoder.position ∧
    (encoder_irq_handler st IrqEvent.index).encoder.pulse_count = st.encoder.pulse_count ∧
    (encoder_irq_handler st IrqEvent.index).encoder.velocity = st.encoder.velocity ∧
    (encoder_irq_handler st IrqEvent.index).encoder.last_pulse_time = st.encoder.last_pulse_time ∧
    (encoder_irq_handler st IrqEvent.index).camera_trigger_count = st.camera_trigger_count :=
  ⟨rfl, rfl, rfl, rfl, rfl, rfl⟩

/-- Claim C2 counterexample: in the sample emission body of
data_acquisition_loop (main.c:420-432) the data_mutex IS held during the
blocking inertial-sensor bus read (imu_read_data, main.c:428) and during
the serial write (send_data_uart, main.c:430), refuting the claim that the
shared-state lock is never held across I/O. -/
theorem data_mutex_held_during_bus_read :
    held_during loop_body LoopAction.imu_read = true ∧
    held_during loop_body LoopAction.uart_send = true := by
  decide

/-- Claim C2 amended: the shared-state lock is acquired before the copy of the
motion-state fields and released only after the serial write, so it is
held during the copy, during the blocking inertial-sensor bus read and
during the serial write. -/
theorem data_mutex_held_across_copy_bus_serial :
    held_during loop_body LoopAction.copy_fields = true ∧
    held_during loop_body LoopAction.imu_read = true ∧
    held_during loop_body LoopAction.uart_send = true := by
  decide

/-- Claim C3: the positive example of the claim holds (position_delta = 5 over
time_delta_us = 10000 gives velocity = 500), and with time_delta_us = 0 no
update occurs (the state is unchanged, since the outer guard compares the
very same difference against 10000); but for the negative delta
position_delta = -5 over time_delta_us = 10000 the code stores
velocity = -1161359657, not the signed quotient -500: in C the int32_t
product -5000000 is converted to uint64_t (2^64 - 5000000) by the usual
arithmetic conversions before the division by the uint64_t time_diff, and
the huge quotient is truncated back to int32_t. -/
theorem velocity_negative_delta_divergence :
    (update_encoder_velocity
        { encoder := { position := 5, velocity := 0, pulse_count := 5, last_pulse_time := 9000,
                       index_detected := false },
          statics := { last_velocity_update := 0, last_position := 0 },
          camera_trigger_count := 0 } 10000).encoder.velocity = 500 ∧
    (update_encoder_velocity
        { encoder := { position := 0, velocity := 0, pulse_count := 5, last_pulse_time := 9000,
                       index_detected := false },
          statics := { last_velocity_update := 7, last_position := 0 },
          camera_trigger_count := 0 } 7) =
      { encoder := { position := 0, velocity := 0, pulse_count := 5, last_pulse_time := 9000,
                     index_detected := false },
        statics := { last_velocity_update := 7, last_position := 0 },
        camera_trigger_count := 0 } ∧
    (update_encoder_velocity
        { encoder := { position := 0, velocity := 0, pulse_count := 5, last_pulse_time := 9000,
                       index_detected := false },
          statics := { last_velocity_update := 0, last_position := 5 },
          camera_trigger_count := 0 } 10000).encoder.velocity = -1161359657 ∧
    ¬ (update_encoder_velocity
        { encoder := { position := 0, velocity := 0, pulse_count := 5, last_pulse_time := 9000,
                       index_detected := false },
          statics := { last_velocity_update := 0, last_position := 5 },
          camera_trigger_count := 0 } 10000).encoder.velocity = (-5 * 1000000 : Int) / 10000 := by
  refine ⟨by decide, by decide, by decide, by decide⟩

theorem run_irq_append (st : FirmwareState) (l1 l2 : List IrqEvent) :
    run_irq st (l1 ++ l2) = run_irq (run_irq st l1) l2 := by
  induction l1 generalizing st with
  | nil => rfl
  | cons e es ih => exact ih (encoder_irq_handler st e)

theorem countA_append (l1 l2 : List IrqEvent) :
    countA (l1 ++ l2) = countA l1 + countA l2 := by
  unfold countA
  exact List.countP_append _ l1 l2

theorem countA_replicate_edgeA (n : Nat) (a b : Bool) (t tv : Nat) :
    countA (List.replicate n (IrqEvent.edgeA a b t tv)) = n := by
  induction n with
  | zero => rfl
  | succ k ih =>
      unfold countA at *
      rw [List.replicate_succ, List.countP_cons]
      simp [ih]

theorem pulse_camera_invariant (t0 : Nat) (es : List IrqEvent) (h : countA es < 2 ^ 32) :
    (run_irq (encoder_init t0) es).encoder.pulse_count = countA es ∧
    (run_irq (encoder_init t0) es).camera_trigger_count = countA es / ENCODER_TRIGGER_INTERVAL := by
  induction es using List.reverseRecOn with
  | nil => exact ⟨rfl, rfl⟩
  | append_singleton es e ih =>
      rw [run_irq_append]
      cases e with
      | index =>
          have hA : countA (es ++ [IrqEvent.index]) = countA es := by
            rw [countA_append]; rfl
          rw [hA] at h ⊢
          obtain ⟨ih1, ih2⟩ := ih h
          exact ⟨ih1, ih2⟩
      | edgeA a b t tv =>
          have hA : countA (es ++ [IrqEvent.edgeA a b t tv]) = countA es + 1 := by
            rw [countA_append]; rfl
          rw [hA] at h ⊢
          obtain ⟨ih1, ih2⟩ := ih (by omega)
          have hwrap : wrapU32 (countA es + 1) = countA es + 1 := Nat.mod_eq_of_lt h
          constructor
          · show (encoder_irq_handler_A (run_irq (encoder_init t0) es) a b t tv).encoder.pulse_count = _
            rw [edgeA_pulse, ih1, hwrap]
          · show (encoder_irq_handler_A (run_irq (encoder_init t0) es) a b t tv).camera_trigger_count = _
            rw [edgeA_camera, ih1, ih2, hwrap, Nat.succ_div]
            have hdivle : countA es / ENCODER_TRIGGER_INTERVAL ≤ (2 ^ 32 - 1) / ENCODER_TRIGGER_INTERVAL :=
              Nat.div_le_div_right (by omega)
            have hc : countA es / ENCODER_TRIGGER_INTERVAL + 1 < 2 ^ 32 := by
              have hval : (2 ^ 32 - 1) / ENCODER_TRIGGER_INTERVAL = 42949672 := by decide
              omega
            by_cases hd : (countA es + 1) % ENCODER_TRIGGER_INTERVAL = 0
            · rw [if_pos hd, if_pos (Nat.dvd_iff_mod_eq_zero.mpr hd)]
              exact Nat.mod_eq_of_lt hc
            · rw [if_neg hd, if_neg (fun hdd => hd (Nat.dvd_iff_mod_eq_zero.mp hdd))]
              omega

theorem run_edges_camera (n : Nat) (h : n < 2 ^ 32) (a b : Bool) (t tv : Nat) :
    (run_irq (encoder_init 0) (List.replicate n (IrqEvent.edgeA a b t tv))).camera_trigger_count =
      n / ENCODER_TRIGGER_INTERVAL := by
  have hc : countA (List.replicate n (IrqEvent.edgeA a b t tv)) = n := countA_replicate_edgeA n a b t tv
  have h2 := pulse_camera_invariant 0 (List.replicate n (IrqEvent.edgeA a b t tv)) (by rw [hc]; exact h)
  rw [h2.2, hc]

/-- Claim C5: within one phase-A edge invocation the camera trigger fires (and
the trigger counter is incremented) exactly when the post-increment
pulse_count is a multiple of ENCODER_TRIGGER_INTERVAL = 100 (first
conjunct, over every state); and a run of 250 edges from the zeroed
state produces exactly 2 triggers, the first completed at the 100th edge
and the second at the 200th (remaining conjuncts). -/
theorem camera_trigger_iff_mod100 :
    (∀ (st : FirmwareState) (a b : Bool) (t tv : Nat),
        (encoder_irq_handler_A st a b t tv).camera_trigger_count =
          (if wrapU32 (st.encoder.pulse_count + 1) % ENCODER_TRIGGER_INTERVAL = 0
           then wrapU32 (st.camera_trigger_count + 1) else st.camera_trigger_count)) ∧
    (run_irq (encoder_init 0) (List.replicate 250 (IrqEvent.edgeA true true 0 0))).camera_trigger_count = 2 ∧
    (run_irq (encoder_init 0) (List.replicate 99 (IrqEvent.edgeA true true 0 0))).camera_trigger_count = 0 ∧
    (run_irq (encoder_init 0) (List.replicate 100 (IrqEvent.edgeA true true 0 0))).camera_trigger_count = 1 ∧
    (run_irq (encoder_init 0) (List.replicate 199 (IrqEvent.edgeA true true 0 0))).camera_trigger_count = 1 ∧
    (run_irq (encoder_init 0) (List.replicate 200 (IrqEvent.edgeA true true 0 0))).camera_trigger_count = 2 :=
  ⟨fun st a b t tv => edgeA_camera st a b t tv,
   (run_edges_camera 250 (by norm_num) true true 0 0).trans (by norm_num [ENCODER_TRIGGER_INTERVAL]),
   (run_edges_camera 99 (by norm_num) true true 0 0).trans (by norm_num [ENCODER_TRIGGER_INTERVAL]),
   (run_edges_camera 100 (by norm_num) true true 0 0).trans (by norm_num [ENCODER_TRIGGER_INTERVAL]),
   (run_edges_camera 199 (by norm_num) true true 0 0).trans (by norm_num [ENCODER_TRIGGER_INTERVAL]),
   (run_edges_camera 200 (by norm_num) true true 0 0).trans (by norm_num [ENCODER_TRIGGER_INTERVAL])⟩

/-- Claim C9: whenever the outer 10 ms rate-limit guard of
update_encoder_velocity is true, the time difference it divides by is the
very same value the guard compared against 10000, hence at least 10000
and in particular nonzero: the divide-by-zero skip branch is unreachable
and the division result is always stored in the velocity field. -/
theorem velocity_divzero_guard_redundant (st : FirmwareState) (c : Nat)
    (h : 10000 ≤ subU64 c st.statics.last_velocity_update) :
    0 < subU64 c st.statics.last_velocity_update ∧
    (update_encoder_velocity st c).encoder.velocity =
      toInt32ofUInt64
        (toUInt64ofInt32 (wrap32 (wrap32 (st.encoder.position - st.statics.last_position) * 1000000)) /
          subU64 c st.statics.last_velocity_update) := by
  have h0 : 0 < subU64 c st.statics.last_velocity_update := lt_of_lt_of_le (by norm_num) h
  refine ⟨h0, ?_⟩
  unfold update_encoder_velocity
  rw [if_pos h]
  dsimp only
  rw [if_pos h0]

/-- Witness for velocity_divzero_guard_redundant at the zeroed state and
current_time = 20000. -/
theorem velocity_divzero_guard_redundant_witness :
    10000 ≤ subU64 20000 (encoder_init 0).statics.last_velocity_update ∧
    (0 < subU64 20000 (encoder_init 0).statics.last_velocity_update ∧
     (update_encoder_velocity (encoder_init 0) 20000).encoder.velocity =
       toInt32ofUInt64
         (toUInt64ofInt32
            (wrap32 (wrap32 ((encoder_init 0).encoder.position - (encoder_init 0).statics.last_position) * 1000000)) /
           subU64 20000 (encoder_init 0).statics.last_velocity_update)) :=
  ⟨by decide, velocity_divzero_guard_redundant (encoder_init 0) 20000 (by decide)⟩

/-- Claim C10: starting from the zeroed initial state, after any sequence of
interrupt invocations containing fewer than 2^32 phase-A edges, the
cumulative camera trigger count equals pulse_count / 100 (integer
division), and pulse_count equals the number of phase-A edges so far;
quantifying over the sequence covers every state between interrupt
invocations. -/
theorem trigger_count_invariant (t0 : Nat) (es : List IrqEvent) (h : countA es < 2 ^ 32) :
    (run_irq (encoder_init t0) es).camera_trigger_count =
      (run_irq (encoder_init t0) es).encoder.pulse_count / ENCODER_TRIGGER_INTERVAL ∧
    (run_irq (encoder_init t0) es).encoder.pulse_count = countA es := by
  obtain ⟨h1, h2⟩ := pulse_camera_invariant t0 es h
  exact ⟨by rw [h1, h2], h1⟩

/-- Witness for trigger_count_invariant on a short mixed interrupt
sequence. -/
theorem trigger_count_invariant_witness :
    countA [IrqEvent.edgeA true true 5 5, IrqEvent.index, IrqEvent.edgeA false true 6 6] < 2 ^ 32 ∧
    ((run_irq (encoder_init 0)
        [IrqEvent.edgeA true true 5 5, IrqEvent.index, IrqEvent.edgeA false true 6 6]).camera_trigger_count =
      (run_irq (encoder_init 0)
        [IrqEvent.edgeA true true 5 5, IrqEvent.index, IrqEvent.edgeA false true 6 6]).encoder.pulse_count /
        ENCODER_TRIGGER_INTERVAL ∧
     (run_irq (encoder_init 0)
        [IrqEvent.edgeA true true 5 5, IrqEvent.index, IrqEvent.edgeA false true 6 6]).encoder.pulse_count =
      countA [IrqEvent.edgeA true true 5 5, IrqEvent.index, IrqEvent.edgeA false true 6 6]) :=
  ⟨by decide,
   trigger_count_invariant 0 [IrqEvent.edgeA true true 5 5, IrqEvent.index, IrqEvent.edgeA false true 6 6]
     (by decide)⟩

theorem count_updates_zero (hi : Nat) (hhi : hi < 2 ^ 64) :
    ∀ (es : List IrqEvent) (st : FirmwareState) (L : Nat),
      st.statics.last_velocity_update = L →
      hi < L + 10000 →
      (∀ tv ∈ edge_velocity_times es, L ≤ tv ∧ tv ≤ hi) →
      count_velocity_updates st es = 0 := by
  intro es
  induction es with
  | nil => intro st L _ _ _; rfl
  | cons e es ih =>
      intro st L hst hwin hmem
      cases e with
      | index =>
          exact ih (encoder_irq_handler st IrqEvent.index) L hst hwin hmem
      | edgeA a b t tv =>
          obtain ⟨hL, hHi⟩ :=
            hmem tv (List.mem_cons_self tv (edge_velocity_times es) :
              tv ∈ edge_velocity_times (IrqEvent.edgeA a b t tv :: es))
          have hsub : subU64 tv st.statics.last_velocity_update = tv - L := by
            rw [hst]; exact subU64_of_le hL (by omega)
          have hnofire : ¬ 10000 ≤ subU64 tv st.statics.last_velocity_update := by
            rw [hsub]; omega
          show (if 10000 ≤ subU64 tv st.statics.last_velocity_update then 1 else 0) +
              count_velocity_updates (encoder_irq_handler st (IrqEvent.edgeA a b t tv)) es = 0
          rw [if_neg hnofire]
          have hst2 : (encoder_irq_handler st (IrqEvent.edgeA a b t tv)).statics.last_velocity_update = L := by
            show (encoder_irq_handler_A st a b t tv).statics.last_velocity_update = L
            rw [edgeA_lvu, if_neg hnofire, hst]
          have hz := ih (encoder_irq_handler st (IrqEvent.edgeA a b t tv)) L hst2 hwin
            (fun tv2 htv2 => hmem tv2 (List.mem_cons_of_mem _ htv2))
          omega

/-- Claim C6: the velocity estimator performs at most one new estimate inside
any wall-clock window shorter than 10 ms, independent of edge arrival
density: for every interrupt sequence whose update timestamps are
nondecreasing (the microsecond clock is monotonic) and all lie in a
window [lo, hi] with hi < lo + 10000, at most one invocation passes the
outer rate-limit guard of update_encoder_velocity. In particular 1000
edges whose timestamps span less than 1 ms produce zero or one velocity
update, never more. -/
theorem velocity_update_rate_limited (lo hi : Nat) (hwin : hi < lo + 10000) (hhi : hi < 2 ^ 64) :
    ∀ (es : List IrqEvent) (st : FirmwareState),
      (∀ tv ∈ edge_velocity_times es, lo ≤ tv ∧ tv ≤ hi) →
      (edge_velocity_times es).Pairwise (· ≤ ·) →
      count_velocity_updates st es ≤ 1 := by
  intro es
  induction es with
  | nil => intro st _ _; exact Nat.zero_le 1
  | cons e es ih =>
      intro st hmem hsort
      cases e with
      | index =>
          exact ih (encoder_irq_handler st IrqEvent.index) hmem hsort
      | edgeA a b t tv =>
          have hpair := List.pairwise_cons.mp hsort
          obtain ⟨hlo, hHi⟩ :=
            hmem tv (List.mem_cons_self tv (edge_velocity_times es) :
              tv ∈ edge_velocity_times (IrqEvent.edgeA a b t tv :: es))
          show (if 10000 ≤ subU64 tv st.statics.last_velocity_update then 1 else 0) +
              count_velocity_updates (encoder_irq_handler st (IrqEvent.edgeA a b t tv)) es ≤ 1
          by_cases hfire : 10000 ≤ subU64 tv st.statics.last_velocity_update
          · rw [if_pos hfire]
            have hz := count_updates_zero hi hhi es (encoder_irq_handler st (IrqEvent.edgeA a b t tv)) tv
              (by
                show (encoder_irq_handler_A st a b t tv).statics.last_velocity_update = tv
                rw [edgeA_lvu, if_pos hfire])
              (by omega)
              (fun tv2 htv2 => ⟨hpair.1 tv2 htv2, (hmem tv2 (List.mem_cons_of_mem _ htv2)).2⟩)
            omega
          · rw [if_neg hfire]
            have hle := ih (encoder_irq_handler st (IrqEvent.edgeA a b t tv))
              (fun tv2 htv2 => hmem tv2 (List.mem_cons_of_mem _ htv2)) hpair.2
            omega

/-- Witness for velocity_update_rate_limited: three invocations (two
phase-A edges and an index edge) with update timestamps 20000 and 20500,
all inside a window of 500 microseconds, produce at most one velocity
update. -/
theorem velocity_update_rate_limited_witness :
    (20500 < 20000 + 10000 ∧ 20500 < 2 ^ 64) ∧
    ((∀ tv ∈ edge_velocity_times
          [IrqEvent.edgeA true true 20000 20000, IrqEvent.index, IrqEvent.edgeA true true 20500 20500],
        20000 ≤ tv ∧ tv ≤ 20500) ∧
     (edge_velocity_times
          [IrqEvent.edgeA true true 20000 20000, IrqEvent.index, IrqEvent.edgeA true true 20500 20500]).Pairwise
        (· ≤ ·)) ∧
    count_velocity_updates (encoder_init 0)
        [IrqEvent.edgeA true true 20000 20000, IrqEvent.index, IrqEvent.edgeA true true 20500 20500] ≤ 1 :=
  ⟨⟨by norm_num, by norm_num⟩, ⟨by decide, by decide⟩,
   velocity_update_rate_limited 20000 20500 (by norm_num) (by norm_num)
     [IrqEvent.edgeA true true 20000 20000, IrqEvent.index, IrqEvent.edgeA true true 20500 20500]
     (encoder_init 0) (by decide) (by decide)⟩

/-- Claim C1 is refuted by the code: one phase-A edge interrupt delivered
between the copy of encoder_position (main.c:423) and the copy of
encoder_velocity (main.c:424) yields a TelemetrySample whose position (0)
is the value from before the interrupt while its velocity (50) is the
value the interrupt computed — the sample matches the shared state at no
single interrupt-invocation boundary (neither before the edge, where
velocity is 0, nor after it, where position is 1), because
encoder_irq_handler performs its writes without acquiring data_mutex. -/
theorem snapshot_tear_exists :
    ¬ ∃ k : Nat,
        consistent_with
          (snapshot_interleaved (encoder_init 0) 20000 []
            [IrqEvent.edgeA true true 20000 20000] [])
          (run_irq (encoder_init 0)
            (List.take k ([] ++ [IrqEvent.edgeA true true 20000 20000] ++ []))) := by
  rintro ⟨k, h⟩
  simp only [consistent_with] at h
  obtain ⟨hpos, hvel, htc⟩ := h
  cases k with
  | zero =>
      revert hvel
      decide
  | succ n =>
      rw [List.take_of_length_le
        (by simp only [List.nil_append, List.append_nil, List.length_cons, List.length_nil]; omega)] at hpos
      revert hpos
      decide

/-- Witness for quadrature_step_spec at the zeroed state with differing
phase levels: the edge decrements position and increments pulse_count. -/
theorem quadrature_step_spec_witness :
    (encoder_irq_handler_A (encoder_init 0) true false 3 4).encoder.position =
      (if true = false then wrap32 ((encoder_init 0).encoder.position + 1)
       else wrap32 ((encoder_init 0).encoder.position - 1)) ∧
    (encoder_irq_handler_A (encoder_init 0) true false 3 4).encoder.pulse_count =
      wrapU32 ((encoder_init 0).encoder.pulse_count + 1) ∧
    (encoder_irq_handler_A (encoder_init 0) true false 3 4).encoder.last_pulse_time = 3 :=
  quadrature_step_spec (encoder_init 0) true false 3 4

/-- Witness for index_pulse_frame at the zeroed state. -/
theorem index_pulse_frame_witness :
    (encoder_irq_handler (encoder_init 5) IrqEvent.index).encoder.index_detected = true ∧
    (encoder_irq_handler (encoder_init 5) IrqEvent.index).encoder.position =
      (encoder_init 5).encoder.position ∧
    (encoder_irq_handler (encoder_init 5) IrqEvent.index).encoder.pulse_count =
      (encoder_init 5).encoder.pulse_count ∧
    (encoder_irq_handler (encoder_init 5) IrqEvent.index).encoder.velocity =
      (encoder_init 5).encoder.velocity ∧
    (encoder_irq_handler (encoder_init 5) IrqEvent.index).encoder.last_pulse_time =
      (encoder_init 5).encoder.last_pulse_time ∧
    (encoder_irq_handler (encoder_init 5) IrqEvent.index).camera_trigger_count =
      (encoder_init 5).camera_trigger_count :=
  index_pulse_frame (encoder_init 5)
